import Mathlib

/-!
Verification of `wyoming_google_stt` (Wyoming protocol bridge to Google
Cloud Speech-to-Text), shallowly embedded in Lean 4.

Source files embedded:
* `wyoming_google_stt/google_stt.py` — the streaming transcription adapter
  (`GoogleSpeechTranscriberAsync._build_config`, `transcribe_streaming` with
  its nested `request_generator`, and the response-folding loop).
* `wyoming_google_stt/handler.py` — the Wyoming session handler
  (`GoogleEventHandler.handle_event`, `_audio_generator`,
  `_streaming_transcription`).
* `wyoming_google_stt/__init__.py` — the `SpeechConfig` record.

Modelling conventions:
* Python `str` is modelled as `List Char`; `str.strip()` is `pyStrip`.
* Raw audio byte buffers are opaque `Chunk := List Nat`.
* Python floats (the phrase boost) are carried as `Rat`; no arithmetic is
  ever performed on them, they are opaque payload.
* `None` / exceptions: `Option` / `Except PyError`.
* The asyncio event loop is modelled by processing the inbound Wyoming
  events sequentially; the background task spawned by `create_task` at
  `AudioStart` reads `self._language` in its first execution slice, before
  any further inbound event is handled (asyncio schedules the fresh task
  ahead of the next socket read), so its recognition configuration is
  recorded at spawn time.
-/

set_option autoImplicit false

namespace WyomingGoogleStt

/-- Raw audio bytes of one frame (`bytes` in Python), kept opaque. -/
abbrev Chunk := List Nat

/-- A BCP-47 language tag, as a Python string. -/
abbrev LangCode := List Char

/-! ### Python `str.strip()` on `List Char` -/

/-- Remove the leading whitespace characters (the left half of Python
`str.strip`). -/
def lstrip : List Char → List Char
  | [] => []
  | c :: cs => if c.isWhitespace then lstrip cs else c :: cs

/-- Remove the trailing whitespace characters. -/
def rstrip (s : List Char) : List Char := (lstrip s.reverse).reverse

/-- Python `str.strip()`: drop whitespace at both ends. -/
def pyStrip (s : List Char) : List Char := lstrip (rstrip s)

theorem lstrip_eq_nil_iff (s : List Char) :
    lstrip s = [] ↔ s.all Char.isWhitespace := by
  induction s with
  | nil => simp [lstrip]
  | cons c cs ih =>
    by_cases hc : c.isWhitespace <;> simp [lstrip, hc, ih]

theorem all_lstrip_iff (s : List Char) :
    (lstrip s).all Char.isWhitespace ↔ s.all Char.isWhitespace := by
  induction s with
  | nil => simp [lstrip]
  | cons c cs ih =>
    by_cases hc : c.isWhitespace <;> simp [lstrip, hc, ih]

theorem rstrip_append_space (s : List Char) :
    rstrip (s ++ [' ']) = rstrip s := by
  simp [rstrip, lstrip]

theorem pyStrip_append_space (s : List Char) :
    pyStrip (s ++ [' ']) = pyStrip s := by
  simp [pyStrip, rstrip_append_space]

theorem pyStrip_eq_nil_iff (s : List Char) :
    pyStrip s = [] ↔ s.all Char.isWhitespace := by
  unfold pyStrip
  rw [lstrip_eq_nil_iff]
  unfold rstrip
  rw [List.all_reverse, all_lstrip_iff, List.all_reverse]

/-! ### `google_stt.py`: data model of the Google streaming API -/

/-- One ranked hypothesis inside a recognition result
(`result.alternatives[i]`, carrying `.transcript`). -/
structure SpeechRecognitionAlternative where
  transcript : List Char
  deriving DecidableEq, Repr

/-- One recognition result inside a streaming response (`response.results[i]`,
carrying `.is_final` and `.alternatives`). -/
structure StreamingRecognitionResult where
  is_final : Bool
  alternatives : List SpeechRecognitionAlternative
  deriving DecidableEq, Repr

/-- One inbound message of the response stream (`response.results`). -/
structure StreamingRecognizeResponse where
  results : List StreamingRecognitionResult
  deriving DecidableEq, Repr

/-- `RecognitionConfig.AudioEncoding` — only `LINEAR16` is ever used. -/
inductive AudioEncoding where
  | LINEAR16
  deriving DecidableEq, Repr

/-- `speech.SpeechContext(phrases=..., boost=...)`. -/
structure SpeechContext where
  phrases : List (List Char)
  boost : Rat
  deriving DecidableEq, Repr

/-- `speech_v1.RecognitionConfig` as built by `_build_config`. -/
structure RecognitionConfig where
  encoding : AudioEncoding
  sample_rate_hertz : Nat
  language_code : LangCode
  alternative_language_codes : List LangCode
  model : List Char
  speech_contexts : List SpeechContext
  deriving DecidableEq, Repr

/-- `speech_v1.StreamingRecognitionConfig`. -/
structure StreamingRecognitionConfig where
  config : RecognitionConfig
  interim_results : Bool
  single_utterance : Bool
  deriving DecidableEq, Repr

/-- One outbound message of the request stream
(`speech_v1.StreamingRecognizeRequest`): either the one-off configuration
message or one audio frame. -/
inductive StreamingRecognizeRequest where
  | config_req (c : StreamingRecognitionConfig)
  | audio_content (chunk : Chunk)
  deriving DecidableEq, Repr

/-- Is a request the configuration message? -/
def isConfigReq : StreamingRecognizeRequest → Bool
  | .config_req _ => true
  | .audio_content _ => false

/-- `DEFAULT_SAMPLE_RATE = 16000` in `google_stt.py`. -/
def DEFAULT_SAMPLE_RATE : Nat := 16000

/-- `GoogleSpeechTranscriberAsync._build_config`.  Mirrors the Python body:
an optional single speech context (only when `phrases` is non-empty), fixed
LINEAR16 encoding at 16 kHz, `alternative_language_codes or []` and
`model or ""`. -/
def build_config (language_code : LangCode)
    (alternative_language_codes : Option (List LangCode))
    (model : Option (List Char)) (phrases : List (List Char))
    (phrase_boost : Rat) : RecognitionConfig :=
  let speech_contexts : List SpeechContext :=
    if phrases ≠ [] then [⟨phrases, phrase_boost⟩] else []
  { encoding := .LINEAR16
    sample_rate_hertz := DEFAULT_SAMPLE_RATE
    language_code := language_code
    alternative_language_codes := alternative_language_codes.getD []
    model := model.getD []
    speech_contexts := speech_contexts }

/-- The nested `request_generator` of `transcribe_streaming`: yield the
configuration message first, then one `audio_content` message per chunk
drawn from the audio generator, in order. -/
def request_generator (streaming_config : StreamingRecognitionConfig)
    (audio : List Chunk) : List StreamingRecognizeRequest :=
  .config_req streaming_config :: audio.map .audio_content

/-- The response-folding step of `transcribe_streaming`
(`if result.is_final and result.alternatives: transcript +=
result.alternatives[0].transcript + " "`). -/
def accumulate_result (transcript : List Char)
    (result : StreamingRecognitionResult) : List Char :=
  if result.is_final then
    match result.alternatives with
    | [] => transcript
    | alt :: _ => transcript ++ alt.transcript ++ [' ']
  else transcript

/-- The whole response-folding loop of `transcribe_streaming`
(lines 155–167 of `google_stt.py`): fold every result of every response
into the accumulator, then `strip()` the accumulated text. -/
def fold_transcript (responses : List StreamingRecognizeResponse) : List Char :=
  pyStrip (responses.foldl
    (fun transcript response => response.results.foldl accumulate_result transcript) [])

/-- Exceptions that can cross the adapter/handler boundary. -/
inductive PyError where
  | cancelledError
  | googleAPIError
  | otherError
  deriving DecidableEq, Repr

/-- `GoogleSpeechTranscriberAsync.transcribe_streaming`.  The remote
service is an environment parameter: either it fails the exchange with an
exception (which the adapter logs and re-raises) or it yields the inbound
response stream.  The value is the pair of the outbound request stream
produced by `request_generator` and the adapter's outcome. -/
def transcribe_streaming (audio : List Chunk) (language_code : LangCode)
    (alternative_language_codes : Option (List LangCode))
    (model : Option (List Char)) (phrases : List (List Char))
    (phrase_boost : Rat)
    (remote : Except PyError (List StreamingRecognizeResponse)) :
    List StreamingRecognizeRequest × Except PyError (List Char) :=
  let config := build_config language_code alternative_language_codes
    model phrases phrase_boost
  let streaming_config : StreamingRecognitionConfig :=
    { config := config, interim_results := false, single_utterance := true }
  let requests := request_generator streaming_config audio
  match remote with
  | .error e => (requests, .error e)
  | .ok responses => (requests, .ok (fold_transcript responses))

/-! ### `handler.py`: the Wyoming session handler -/

/-- `SpeechConfig` from `wyoming_google_stt/__init__.py`. -/
structure SpeechConfig where
  language : LangCode
  alternative_languages : List LangCode
  model : List Char
  phrases : List (List Char)
  phrase_boost : Rat
  deriving DecidableEq, Repr

/-- Events written back to the Wyoming client. -/
inductive OutEvent where
  | transcript (text : List Char)
  | info
  deriving DecidableEq, Repr

/-- Is an outbound event a `Transcript`? -/
def isTranscriptEvent : OutEvent → Bool
  | .transcript _ => true
  | .info => false

/-- `GoogleEventHandler._audio_generator`: drain the queue contents until
the `None` end-of-stream marker (or until the queue is closed), yielding
the frames in order. -/
def audio_generator : List (Option Chunk) → List Chunk
  | [] => []
  | none :: _ => []
  | some c :: rest => c :: audio_generator rest

/-- `GoogleEventHandler._streaming_transcription`: run the adapter and
publish the result.  The adapter's outcome is the parameter; the value is
`.ok` of the events written (`.error` would mean an exception escaped the
task, which the `try/except` structure never allows): a `Transcript(text)`
on success, nothing on `asyncio.CancelledError`, and an empty
`Transcript("")` on any other exception. -/
def streaming_transcription (adapter_result : Except PyError (List Char)) :
    Except PyError (List OutEvent) :=
  match adapter_result with
  | .ok text => .ok [.transcript text]
  | .error .cancelledError => .ok []
  | .error .googleAPIError => .ok [.transcript []]
  | .error .otherError => .ok [.transcript []]

/-- The events a task outcome makes visible to the protocol layer. -/
def emitted_events (adapter_result : Except PyError (List Char)) :
    List OutEvent :=
  match streaming_transcription adapter_result with
  | .ok events => events
  | .error _ => []

/-- How many `Transcript` events a task outcome emits. -/
def transcriptCount (adapter_result : Except PyError (List Char)) : Nat :=
  ((emitted_events adapter_result).filter isTranscriptEvent).length

/-- Does an `Except` hold a value (no exception escaped)? -/
def exceptOk {α β : Type} : Except α β → Bool
  | .ok _ => true
  | .error _ => false

/-- `asyncio.Queue(maxsize=16)` in `GoogleEventHandler.handle_event`. -/
def QUEUE_MAXSIZE : Nat := 16

/-- The inbound Wyoming events `handle_event` dispatches on.  A
`.transcribe` carries the language of the `Transcribe` event, `[]`
standing for both a missing and an empty (falsy) language. -/
inductive WyEvent where
  | describe
  | audioStart
  | audioChunk (data : Chunk)
  | audioStop
  | transcribe (language : LangCode)
  | other
  deriving DecidableEq, Repr

/-- The mutable per-connection state of `GoogleEventHandler`: the current
language, the live queue and task references (by instance id) and a
freshness counter for instance ids. -/
structure SessionState where
  speech_config : SpeechConfig
  language : LangCode
  queue : Option Nat
  task : Option Nat
  nextId : Nat
  deriving DecidableEq, Repr

/-- The recognition configuration an utterance started in state `st` is
transcribed with: `_streaming_transcription` calls `transcribe_streaming`
with the handler's current `_language` and the static `SpeechConfig`
fields, and `transcribe_streaming` runs them through `_build_config`. -/
def utterance_config (st : SessionState) : RecognitionConfig :=
  build_config st.language (some st.speech_config.alternative_languages)
    (some st.speech_config.model) st.speech_config.phrases
    st.speech_config.phrase_boost

/-- What one `handle_event` call did: the state afterwards, the queue puts
it performed (queue id, `none` = terminal marker), the background tasks it
spawned (queue id and captured configuration), whether it logged the
queue-is-None warning, whether it wrote the info event, and its return
value (`false` ends the session). -/
structure HandleOut where
  state : SessionState
  puts : List (Nat × Option Chunk)
  started : List (Nat × RecognitionConfig)
  warned : Bool
  sent_info : Bool
  cont : Bool
  deriving DecidableEq, Repr

/-- `GoogleEventHandler.handle_event`, one event at a time:
* `Describe` → write the info event, return `True`;
* `AudioStart` → fresh bounded queue and background task, return `True`;
* `AudioChunk` → put the frame on the queue if there is one, else log a
  warning and drop it, return `True`;
* `AudioStop` → put the single `None` terminal marker if a queue is live,
  await the task, clear both references, return `False` (end session);
* `Transcribe` → store a truthy language for the next utterance,
  return `True`;
* anything else → return `True`. -/
def handle_event (st : SessionState) (ev : WyEvent) : HandleOut :=
  match ev with
  | .describe =>
      { state := st, puts := [], started := [], warned := false,
        sent_info := true, cont := true }
  | .audioStart =>
      { state :=
          { st with
            queue := some st.nextId
            task := some st.nextId
            nextId := st.nextId + 1 },
        puts := [],
        started := [(st.nextId, utterance_config st)],
        warned := false, sent_info := false, cont := true }
  | .audioChunk c =>
      match st.queue with
      | some q =>
          { state := st, puts := [(q, some c)], started := [],
            warned := false, sent_info := false, cont := true }
      | none =>
          { state := st, puts := [], started := [], warned := true,
            sent_info := false, cont := true }
  | .audioStop =>
      { state := { st with queue := none, task := none },
        puts := match st.queue with
          | some q => [(q, none)]
          | none => [],
        started := [], warned := false, sent_info := false, cont := false }
  | .transcribe language =>
      { state := if language ≠ [] then { st with language := language } else st,
        puts := [], started := [], warned := false, sent_info := false,
        cont := true }
  | .other =>
      { state := st, puts := [], started := [], warned := false,
        sent_info := false, cont := true }

/-- The observable outcome of feeding a whole event sequence to one
session: final state, all queue puts, all spawned tasks, and whether the
handler ended the session (`handle_event` returned `False`). -/
structure RunResult where
  state : SessionState
  puts : List (Nat × Option Chunk)
  started : List (Nat × RecognitionConfig)
  halted : Bool
  deriving DecidableEq, Repr

/-- Process events sequentially, stopping at the first `False` return. -/
def runAux (st : SessionState) (puts : List (Nat × Option Chunk))
    (started : List (Nat × RecognitionConfig)) :
    List WyEvent → RunResult
  | [] => ⟨st, puts, started, false⟩
  | ev :: rest =>
      let h := handle_event st ev
      cond h.cont
        (runAux h.state (puts ++ h.puts) (started ++ h.started) rest)
        ⟨h.state, puts ++ h.puts, started ++ h.started, true⟩

/-- A fresh session (`GoogleEventHandler.__init__`: no queue, no task,
language taken from the speech configuration) processing an event list. -/
def run (cfg : SpeechConfig) (events : List WyEvent) : RunResult :=
  runAux ⟨cfg, cfg.language, none, none, 0⟩ [] [] events

/-- The puts a whole run performed on one queue instance, in order. -/
def putsTo (puts : List (Nat × Option Chunk)) (qid : Nat) :
    List (Option Chunk) :=
  puts.filterMap (fun p => if p.1 = qid then some p.2 else none)

/-- The legal lifetime shape of one queue instance's put sequence: audio
frames, then at most one trailing terminal marker, nothing after it. -/
def goodShape : List (Option Chunk) → Bool
  | [] => true
  | [none] => true
  | none :: _ :: _ => false
  | some _ :: rest => goodShape rest

/-- Tasks spawned during a run whose queue never received the terminal
marker can never finish draining their audio generator: they are still
live.  (This counts executions where the remote exchange consumes the
full audio stream, the normal case.) -/
def liveTaskCount (r : RunResult) : Nat :=
  (r.started.filter (fun t => !(r.puts.contains (t.1, (none : Option Chunk))))).length

/-! ### Fragment bookkeeping for the response-folding loop -/

/-- Concatenate a list of lists. -/
def catLists {α : Type} : List (List α) → List α
  | [] => []
  | x :: xs => x ++ catLists xs

/-- The text fragment a single result contributes, if any: final results
with at least one alternative contribute their first alternative. -/
def resultFragment (result : StreamingRecognitionResult) :
    Option (List Char) :=
  if result.is_final then
    match result.alternatives with
    | [] => none
    | alt :: _ => some alt.transcript
  else none

/-- The fragments one response contributes, in result order. -/
def responseFragments (response : StreamingRecognizeResponse) :
    List (List Char) :=
  response.results.filterMap resultFragment

/-- All fragments the inbound stream contributes, in delivery order. -/
def finalFragments (responses : List StreamingRecognizeResponse) :
    List (List Char) :=
  catLists (responses.map responseFragments)

/-- Did the stream carry no final result at all? -/
def noFinalResults (responses : List StreamingRecognizeResponse) : Bool :=
  responses.all (fun resp => resp.results.all (fun res => !res.is_final))

/-- Fragments joined with a single separating space. -/
def joinSpace : List (List Char) → List Char
  | [] => []
  | [x] => x
  | x :: y :: rest => x ++ ' ' :: joinSpace (y :: rest)

theorem catLists_append {α : Type} (xs ys : List (List α)) :
    catLists (xs ++ ys) = catLists xs ++ catLists ys := by
  induction xs with
  | nil => simp [catLists]
  | cons x xs ih => simp [catLists, ih]

theorem catLists_all (p : Char → Bool) (ls : List (List Char)) :
    (catLists ls).all p = ls.all (·.all p) := by
  induction ls with
  | nil => simp [catLists]
  | cons x ls ih => simp [catLists, List.all_append, ih]

theorem accumulate_result_eq (transcript : List Char)
    (result : StreamingRecognitionResult) :
    accumulate_result transcript result =
      transcript ++
        (match resultFragment result with
         | none => []
         | some f => f ++ [' ']) := by
  unfold accumulate_result resultFragment
  by_cases hf : result.is_final
  · cases result.alternatives <;> simp [hf]
  · simp [hf]

theorem foldl_accumulate_results (results : List StreamingRecognitionResult)
    (transcript : List Char) :
    results.foldl accumulate_result transcript =
      transcript ++
        catLists ((results.filterMap resultFragment).map (· ++ [' '])) := by
  induction results generalizing transcript with
  | nil => simp [catLists]
  | cons r rest ih =>
    rw [List.foldl_cons, ih, accumulate_result_eq, List.filterMap_cons]
    cases resultFragment r <;> simp [catLists]

theorem foldl_accumulate_responses
    (responses : List StreamingRecognizeResponse) (transcript : List Char) :
    responses.foldl
        (fun t response => response.results.foldl accumulate_result t)
        transcript =
      transcript ++ catLists ((finalFragments responses).map (· ++ [' '])) := by
  induction responses generalizing transcript with
  | nil => simp [finalFragments, catLists]
  | cons resp rest ih =>
    rw [List.foldl_cons, ih, foldl_accumulate_results]
    simp [finalFragments, catLists, catLists_append, responseFragments]

theorem fold_transcript_eq (responses : List StreamingRecognizeResponse) :
    fold_transcript responses =
      pyStrip (catLists ((finalFragments responses).map (· ++ [' ']))) := by
  unfold fold_transcript
  rw [foldl_accumulate_responses]
  rfl

theorem catLists_spaced (x : List Char) (rest : List (List Char)) :
    catLists ((x :: rest).map (· ++ [' '])) = joinSpace (x :: rest) ++ [' '] := by
  induction rest generalizing x with
  | nil => simp [catLists, joinSpace]
  | cons y rest ih =>
    have h := ih y
    simp only [List.map_cons, catLists, joinSpace] at h ⊢
    simp [← h]

theorem pyStrip_catLists_spaced (fragments : List (List Char)) :
    pyStrip (catLists (fragments.map (· ++ [' ']))) =
      pyStrip (joinSpace fragments) := by
  cases fragments with
  | nil => rfl
  | cons x rest => rw [catLists_spaced, pyStrip_append_space]

/-! ### The bounded audio relay queue (backpressure model)

Modelled from the spec: the queue object itself is
`asyncio.Queue(maxsize=16)`, library code outside this repository;
`handle_event` only chooses the bound.  Per the spec the queue is a
bounded FIFO whose `put` suspends the producer when the queue is full
(holding the frame, not dropping it, not busy-waiting) until the consumer
removes an item, at which point the suspended put completes. -/

/-- The queue's state: buffered frames plus the frame a suspended producer
is still waiting to put, if any. -/
structure BoundedQueue where
  buf : List Chunk
  pending : Option Chunk
  deriving DecidableEq, Repr

/-- `put`: append when there is room, otherwise suspend holding the item. -/
def qput (q : BoundedQueue) (c : Chunk) : BoundedQueue :=
  if q.buf.length < QUEUE_MAXSIZE then { q with buf := q.buf ++ [c] }
  else { q with pending := some c }

/-- `get`: pop the oldest frame; a producer suspended on a full queue is
woken and its pending put completes. -/
def qget (q : BoundedQueue) : BoundedQueue × Option Chunk :=
  match q.buf with
  | [] => (q, none)
  | x :: rest =>
      match q.pending with
      | some c => (⟨rest ++ [c], none⟩, some x)
      | none => (⟨rest, none⟩, some x)

/-- One scheduler step: the producer attempts a put (a no-op while it is
still suspended on an earlier one), or the consumer performs a get. -/
inductive QAction where
  | produce (c : Chunk)
  | consume
  deriving DecidableEq, Repr

/-- Advance the queue by one action. -/
def qstep (q : BoundedQueue) : QAction → BoundedQueue
  | .produce c => if q.pending.isSome then q else qput q c
  | .consume => (qget q).1

/-- Run an arbitrary interleaving of producer and consumer steps. -/
def runQueue (q : BoundedQueue) : List QAction → BoundedQueue
  | [] => q
  | a :: rest => runQueue (qstep q a) rest

theorem qstep_length_le (q : BoundedQueue) (a : QAction)
    (h : q.buf.length ≤ QUEUE_MAXSIZE) :
    (qstep q a).buf.length ≤ QUEUE_MAXSIZE := by
  cases a with
  | produce c =>
    by_cases hp : q.pending.isSome
    · simpa [qstep, hp] using h
    · by_cases hl : q.buf.length < QUEUE_MAXSIZE
      · simp [qstep, hp, qput, hl]
        omega
      · simpa [qstep, hp, qput, hl] using h
  | consume =>
    cases hb : q.buf with
    | nil => simp [qstep, qget, hb, QUEUE_MAXSIZE]
    | cons x rest =>
      cases hp : q.pending with
      | some c =>
        simp [qstep, qget, hb, hp]
        have : q.buf.length = rest.length + 1 := by simp [hb]
        omega
      | none =>
        simp [qstep, qget, hb, hp]
        have : q.buf.length = rest.length + 1 := by simp [hb]
        omega

theorem runQueue_length_le (acts : List QAction) (q : BoundedQueue)
    (h : q.buf.length ≤ QUEUE_MAXSIZE) :
    (runQueue q acts).buf.length ≤ QUEUE_MAXSIZE := by
  induction acts generalizing q with
  | nil => simpa [runQueue] using h
  | cons a rest ih => exact ih _ (qstep_length_le q a h)

/-! ### Lemmas about event-sequence runs -/

theorem putsTo_append (a b : List (Nat × Option Chunk)) (qid : Nat) :
    putsTo (a ++ b) qid = putsTo a qid ++ putsTo b qid := by
  simp [putsTo, List.filterMap_append]

theorem putsTo_single (q qid : Nat) (item : Option Chunk) :
    putsTo [(q, item)] qid = if q = qid then [item] else [] := by
  by_cases h : q = qid <;> simp [putsTo, List.filterMap_cons, h]

theorem goodShape_of_allSome (l : List (Option Chunk))
    (h : l.all Option.isSome = true) : goodShape l = true := by
  induction l with
  | nil => rfl
  | cons x rest ih =>
    match x with
    | some c =>
      simp only [List.all_cons, Option.isSome_some, Bool.true_and] at h
      simpa [goodShape] using ih h
    | none => simp at h

theorem goodShape_allSome_append_none (l : List (Option Chunk))
    (h : l.all Option.isSome = true) : goodShape (l ++ [none]) = true := by
  induction l with
  | nil => rfl
  | cons x rest ih =>
    match x with
    | some c =>
      simp only [List.all_cons, Option.isSome_some, Bool.true_and] at h
      simpa [goodShape] using ih h
    | none => simp at h

/-- Processing a concatenation of event lists: the second part only runs
when the first did not end the session. -/
theorem runAux_append (es more : List WyEvent) :
    ∀ (st : SessionState) (puts : List (Nat × Option Chunk))
      (started : List (Nat × RecognitionConfig)),
    runAux st puts started (es ++ more) =
      (if (runAux st puts started es).halted then runAux st puts started es
       else runAux (runAux st puts started es).state
         (runAux st puts started es).puts
         (runAux st puts started es).started more) := by
  induction es with
  | nil => intro st puts started; simp [runAux]
  | cons e es ih =>
    intro st puts started
    cases hc : (handle_event st e).cont with
    | true =>
      simp only [List.cons_append, runAux, hc, cond_true, List.append_eq]
      exact ih _ _ _
    | false => simp [runAux, hc]

/-- The per-session invariant the handler maintains over queue puts:
no put ever targets a not-yet-created queue, the active queue has so far
received only audio frames, and every inactive queue's put history already
has the legal lifetime shape. -/
def QInv (st : SessionState) (puts : List (Nat × Option Chunk)) : Prop :=
  (∀ qid, st.nextId ≤ qid → putsTo puts qid = []) ∧
  (∀ q, st.queue = some q →
     q < st.nextId ∧ (putsTo puts q).all Option.isSome = true) ∧
  (∀ qid, st.queue ≠ some qid → goodShape (putsTo puts qid) = true)

theorem QInv_initial (cfg : SpeechConfig) :
    QInv ⟨cfg, cfg.language, none, none, 0⟩ [] :=
  ⟨fun _ _ => rfl, fun q hq => by simp at hq, fun _ _ => rfl⟩

theorem QInv_step (st : SessionState) (puts : List (Nat × Option Chunk))
    (hinv : QInv st puts) (ev : WyEvent) :
    QInv (handle_event st ev).state (puts ++ (handle_event st ev).puts) := by
  obtain ⟨h1, h2, h3⟩ := hinv
  cases ev with
  | describe => simpa [handle_event] using ⟨h1, h2, h3⟩
  | other => simpa [handle_event] using ⟨h1, h2, h3⟩
  | transcribe language =>
    by_cases hl : language = []
    · simpa [handle_event, hl] using ⟨h1, h2, h3⟩
    · simpa [handle_event, hl] using ⟨h1, h2, h3⟩
  | audioStart =>
    simp only [handle_event, List.append_nil]
    refine ⟨fun qid hge => h1 qid (Nat.le_of_succ_le hge), ?_, ?_⟩
    · intro q hq
      obtain rfl : st.nextId = q := by simpa using hq
      refine ⟨Nat.lt_succ_self _, ?_⟩
      rw [h1 st.nextId (Nat.le_refl _)]
      rfl
    · intro qid _
      by_cases hq : st.queue = some qid
      · exact goodShape_of_allSome _ (h2 qid hq).2
      · exact h3 qid hq
  | audioChunk c =>
    cases hq : st.queue with
    | none => simpa [handle_event, hq] using ⟨h1, h2, h3⟩
    | some q =>
      obtain ⟨hqlt, hqall⟩ := h2 q hq
      simp only [handle_event, hq]
      refine ⟨?_, ?_, ?_⟩
      · intro qid hge
        have hne : q ≠ qid := by omega
        simp [putsTo_append, putsTo_single, hne, h1 qid hge]
      · intro q' hq'
        obtain rfl : q = q' := by
          have h' : st.queue = some q' := by simpa using hq'
          rw [hq] at h'
          exact Option.some.inj h'
        refine ⟨hqlt, ?_⟩
        simp [putsTo_append, putsTo_single, List.all_append, hqall]
      · intro qid hne
        have hne' : q ≠ qid := by
          intro h; exact hne (by rw [← h]; exact hq)
        rw [putsTo_append, putsTo_single]
        simp only [hne', if_false]
        rw [List.append_nil]
        exact h3 qid (by rw [hq]; simpa using hne')
  | audioStop =>
    cases hq : st.queue with
    | none =>
      simp only [handle_event, hq, List.append_nil]
      refine ⟨h1, fun q hq' => by simp at hq', fun qid _ => ?_⟩
      exact h3 qid (by simp [hq])
    | some q =>
      obtain ⟨hqlt, hqall⟩ := h2 q hq
      simp only [handle_event, hq]
      refine ⟨?_, fun q' hq' => by simp at hq', ?_⟩
      · intro qid hge
        have hge' : st.nextId ≤ qid := hge
        have hne : q ≠ qid := by omega
        simp [putsTo_append, putsTo_single, hne, h1 qid hge']
      · intro qid _
        by_cases hqe : q = qid
        · subst hqe
          rw [putsTo_append, putsTo_single]
          simp only [if_pos rfl]
          exact goodShape_allSome_append_none _ hqall
        · rw [putsTo_append, putsTo_single]
          simp only [hqe, if_false]
          rw [List.append_nil]
          exact h3 qid (by rw [hq]; simpa using hqe)

theorem QInv_goodShape {st : SessionState} {puts : List (Nat × Option Chunk)}
    (h : QInv st puts) (qid : Nat) : goodShape (putsTo puts qid) = true := by
  by_cases hq : st.queue = some qid
  · exact goodShape_of_allSome _ ((h.2.1 qid hq).2)
  · exact h.2.2 qid hq

theorem runAux_goodShape (es : List WyEvent) :
    ∀ (st : SessionState) (puts : List (Nat × Option Chunk))
      (started : List (Nat × RecognitionConfig)), QInv st puts →
    ∀ qid, goodShape (putsTo (runAux st puts started es).puts qid) = true := by
  induction es with
  | nil => intro st puts started hinv qid; exact QInv_goodShape hinv qid
  | cons e es ih =>
    intro st puts started hinv qid
    have hstep := QInv_step st puts hinv e
    cases hc : (handle_event st e).cont with
    | true =>
      simp only [runAux, hc, cond_true]
      exact ih _ _ _ hstep qid
    | false =>
      simp only [runAux, hc, cond_false]
      exact QInv_goodShape hstep qid

/-- A streaming session state traversed by frames and a stop: each frame
becomes a put on the active queue, the stop adds the single marker and
ends the session. -/
theorem runAux_stream (frames : List Chunk) :
    ∀ (st : SessionState) (puts : List (Nat × Option Chunk))
      (started : List (Nat × RecognitionConfig)) (q : Nat),
    st.queue = some q →
    runAux st puts started (frames.map .audioChunk ++ [.audioStop]) =
      ⟨{ st with queue := none, task := none },
       puts ++ frames.map (fun c => (q, some c)) ++ [(q, none)],
       started, true⟩ := by
  induction frames with
  | nil =>
    intro st puts started q hq
    simp [runAux, handle_event, hq]
  | cons c frames ih =>
    intro st puts started q hq
    simp only [List.map_cons, List.cons_append, runAux, handle_event, hq,
      cond_true, List.append_eq]
    rw [ih st _ _ q hq]
    simp

theorem putsTo_map_self (q : Nat) (frames : List Chunk) :
    putsTo (frames.map (fun c => (q, some c))) q = frames.map some := by
  induction frames with
  | nil => rfl
  | cons c frames ih => simp [putsTo, List.filterMap_cons] at ih ⊢; exact ih

theorem audio_generator_terminated (frames : List Chunk) :
    audio_generator (frames.map some ++ [none]) = frames := by
  induction frames with
  | nil => rfl
  | cons c frames ih => simpa [audio_generator] using ih

/-! ### Shared concrete values and small helper lemmas -/

/-- A concrete speech configuration for witness instantiations. -/
def sampleConfig : SpeechConfig :=
  { language := ['e', 'n'], alternative_languages := [], model := [],
    phrases := [], phrase_boost := 20 }

/-- A response carrying exactly one final result with one alternative. -/
def mkFinalResponse (fragment : List Char) : StreamingRecognizeResponse :=
  ⟨[⟨true, [⟨fragment⟩]⟩]⟩

theorem countP_audio_zero (frames : List Chunk) :
    (frames.map StreamingRecognizeRequest.audio_content).countP isConfigReq
      = 0 := by
  induction frames with
  | nil => rfl
  | cons c frames ih => simp [List.countP_cons, isConfigReq, ih]

theorem finalFragments_append (a b : List StreamingRecognizeResponse) :
    finalFragments (a ++ b) = finalFragments a ++ finalFragments b := by
  simp [finalFragments, List.map_append, catLists_append]

theorem finalFragments_cons (resp : StreamingRecognizeResponse)
    (rest : List StreamingRecognizeResponse) :
    finalFragments (resp :: rest) =
      responseFragments resp ++ finalFragments rest := rfl

theorem finalFragments_mkFinal (fragments : List (List Char)) :
    finalFragments (fragments.map mkFinalResponse) = fragments := by
  induction fragments with
  | nil => rfl
  | cons f fragments ih =>
    simp only [List.map_cons, finalFragments_cons, ih]
    simp [responseFragments, resultFragment, mkFinalResponse,
      List.filterMap_cons]

theorem filterMap_resultFragment_nil
    (results : List StreamingRecognitionResult)
    (h : results.all (fun res => ! res.is_final) = true) :
    results.filterMap resultFragment = [] := by
  induction results with
  | nil => rfl
  | cons r rest ih =>
    simp only [List.all_cons, Bool.and_eq_true] at h
    obtain ⟨hr, hrest⟩ := h
    have hr' : r.is_final = false := by simpa using hr
    have hfrag : resultFragment r = none := by simp [resultFragment, hr']
    simp [List.filterMap_cons, hfrag, ih hrest]

theorem finalFragments_of_noFinal
    (responses : List StreamingRecognizeResponse)
    (h : noFinalResults responses = true) : finalFragments responses = [] := by
  induction responses with
  | nil => rfl
  | cons resp rest ih =>
    simp only [noFinalResults, List.all_cons, Bool.and_eq_true] at h
    obtain ⟨hresp, hrest⟩ := h
    rw [finalFragments_cons, ih hrest,
      show responseFragments resp = [] from
        filterMap_resultFragment_nil resp.results hresp]
    rfl

/-! ### The claims -/

/-- **C1.** For every input sequence of N audio frames terminated by the
end-of-stream marker, the adapter's outbound request stream to the remote
service consists of exactly N+1 messages: one configuration message sent
first and exactly once, followed by the N audio frames each as its own
message, in arrival order. -/
theorem claim1_request_stream (language_code : LangCode)
    (alternative_language_codes : Option (List LangCode))
    (model : Option (List Char)) (phrases : List (List Char))
    (phrase_boost : Rat)
    (remote : Except PyError (List StreamingRecognizeResponse))
    (frames : List Chunk) :
    (transcribe_streaming (audio_generator (frames.map some ++ [none]))
        language_code alternative_language_codes model phrases phrase_boost
        remote).1 =
      .config_req
          ⟨build_config language_code alternative_language_codes model
              phrases phrase_boost, false, true⟩ ::
        frames.map .audio_content ∧
    (transcribe_streaming (audio_generator (frames.map some ++ [none]))
        language_code alternative_language_codes model phrases phrase_boost
        remote).1.length = frames.length + 1 ∧
    (transcribe_streaming (audio_generator (frames.map some ++ [none]))
        language_code alternative_language_codes model phrases phrase_boost
        remote).1.countP isConfigReq = 1 := by
  have hgen := audio_generator_terminated frames
  cases remote <;>
    exact ⟨by simp [transcribe_streaming, request_generator, hgen],
      by simp [transcribe_streaming, request_generator, hgen],
      by simp [transcribe_streaming, request_generator, hgen,
        List.countP_cons, countP_audio_zero, isConfigReq]⟩

/-- **C4.** Every error raised inside the background adapter task (any
exception other than the distinct cancellation signal) is caught at the
task boundary and converted into an empty-transcript event written to the
protocol layer; no exception of any kind propagates out of the task. -/
theorem claim4_error_containment :
    (∀ e : PyError, e ≠ .cancelledError →
       streaming_transcription (.error e) = .ok [.transcript []]) ∧
    (∀ r : Except PyError (List Char),
       exceptOk (streaming_transcription r) = true) := by
  constructor
  · intro e he
    cases e with
    | cancelledError => exact absurd rfl he
    | googleAPIError => rfl
    | otherError => rfl
  · intro r
    cases r with
    | ok t => rfl
    | error e => cases e <;> rfl

/-- Witness for C4 at the concrete remote-service error. -/
theorem claim4_witness :
    streaming_transcription (.error .googleAPIError) = .ok [.transcript []] :=
  claim4_error_containment.1 .googleAPIError (by decide)

/-- **C5 (counterexample).** The claim asserts exactly one
transcript-result event in every outcome including cancellation; but when
the background task is cancelled, `_streaming_transcription` writes no
event at all: the transcript count is 0, not 1. -/
theorem claim5_counterexample :
    transcriptCount (.error .cancelledError) = 0 ∧
    transcriptCount (.error .cancelledError) ≠ 1 := by
  exact ⟨rfl, by decide⟩

/-- **C5 (amended).** Exactly one transcript-result event is emitted per
completed utterance in the success, empty-transcription and
failed-transcription outcomes; on cancellation of the background task no
transcript event is emitted. -/
theorem claim5_transcript_multiplicity :
    (∀ text : List Char, transcriptCount (.ok text) = 1) ∧
    (∀ e : PyError, e ≠ .cancelledError → transcriptCount (.error e) = 1) ∧
    transcriptCount (.error .cancelledError) = 0 := by
  refine ⟨fun text => rfl, ?_, rfl⟩
  intro e he
  cases e with
  | cancelledError => exact absurd rfl he
  | googleAPIError => rfl
  | otherError => rfl

/-- Witness for C5 (amended) at the concrete unexpected-error outcome. -/
theorem claim5_witness : transcriptCount (.error .otherError) = 1 :=
  claim5_transcript_multiplicity.2.1 .otherError (by decide)

/-- **C9.** An audio-data event received while the session is IDLE (queue
reference `None`) makes the handler log a warning, drop the frame
(no queue put, no task spawn), leave the session state unchanged, and
keep the connection running (`handle_event` returns `True`). -/
theorem claim9_idle_chunk_dropped (st : SessionState) (c : Chunk)
    (h : st.queue = none) :
    handle_event st (.audioChunk c) =
      { state := st, puts := [], started := [], warned := true,
        sent_info := false, cont := true } := by
  simp [handle_event, h]

/-- Witness for C9 at a concrete IDLE state. -/
theorem claim9_witness :
    handle_event ⟨sampleConfig, sampleConfig.language, none, none, 0⟩
        (.audioChunk [0, 1]) =
      { state := ⟨sampleConfig, sampleConfig.language, none, none, 0⟩,
        puts := [], started := [], warned := true, sent_info := false,
        cont := true } :=
  claim9_idle_chunk_dropped _ _ rfl

/-- **C2 (counterexample).** A second utterance start replaces the queue
and task references without terminating the old ones: after
`[AudioStart, AudioStart]` two spawned tasks are simultaneously live
(neither queue has received a marker, so neither audio generator can
finish), and in the completed session `[AudioStart, AudioStart,
AudioStop]` queue instance 0 never receives a terminal marker — its put
history is empty — contradicting the claimed "exactly one terminal marker
per queue instance". -/
theorem claim2_counterexample :
    liveTaskCount (run sampleConfig [.audioStart, .audioStart]) = 2 ∧
    putsTo (run sampleConfig
        [.audioStart, .audioStart, .audioStop]).puts 0 = [] := by
  exact ⟨rfl, rfl⟩

/-- **C2 (amended).** The session holds at most one queue and one task
reference at any time (single optional attributes), and each queue
instance receives zero or more audio frames followed by **at most** one
terminal marker, after which no further put is performed on it; the queue
that is active at utterance stop receives exactly one terminal marker
after its frames.  (A queue replaced by a new utterance start may never
receive a marker, and its task may stay live — that is what the
counterexample exhibits.) -/
theorem claim2_queue_put_lifetime :
    (∀ (cfg : SpeechConfig) (events : List WyEvent) (qid : Nat),
       goodShape (putsTo (run cfg events).puts qid) = true) ∧
    (∀ (cfg : SpeechConfig) (frames : List Chunk),
       putsTo (run cfg
           (.audioStart :: frames.map .audioChunk ++ [.audioStop])).puts 0 =
         frames.map some ++ [none]) := by
  constructor
  · intro cfg events qid
    exact runAux_goodShape events _ [] [] (QInv_initial cfg) qid
  · intro cfg frames
    unfold run
    simp only [runAux, handle_event, cond_true, List.nil_append,
      List.append_eq]
    rw [runAux_stream frames _ _ _ 0 rfl]
    simp [putsTo_append, putsTo_map_self, putsTo_single]

/-- **C3.** A language override never touches the configuration of an
already-spawned utterance task (the spawn log is unchanged by a
`Transcribe` event, whatever state the session is in), and the next
utterance started after the override is spawned with the overridden
language as the primary language of its configuration. -/
theorem claim3_language_override :
    (∀ (cfg : SpeechConfig) (events : List WyEvent) (language : LangCode),
       (run cfg (events ++ [.transcribe language])).started =
         (run cfg events).started) ∧
    (∀ (cfg : SpeechConfig) (events : List WyEvent) (language : LangCode),
       language ≠ [] → (run cfg events).halted = false →
       (run cfg (events ++ [.transcribe language, .audioStart])).started =
         (run cfg events).started ++
           [((run cfg events).state.nextId,
             utterance_config
               { (run cfg events).state with language := language })]) := by
  constructor
  · intro cfg events language
    unfold run
    rw [runAux_append]
    cases hh : (runAux ⟨cfg, cfg.language, none, none, 0⟩ [] [] events).halted
    · simp [hh, runAux, handle_event]
    · simp [hh]
  · intro cfg events language hlang hhalt
    unfold run at hhalt ⊢
    rw [runAux_append, hhalt]
    simp [runAux, handle_event, hlang]

/-- Witness for C3 on the empty prefix with a concrete override. -/
theorem claim3_witness :
    (run sampleConfig ([] ++ [.transcribe ['e', 's'], .audioStart])).started =
      (run sampleConfig []).started ++
        [((run sampleConfig []).state.nextId,
          utterance_config
            { (run sampleConfig []).state with language := ['e', 's'] })] :=
  claim3_language_override.2 sampleConfig [] ['e', 's'] (by decide) rfl

/-- **C6.** When the remote service delivers final results R1, ..., Rn in
that order (one final result with one alternative per response), the
adapter returns the fragments joined with a single separating space in
delivery order, trimmed of leading and trailing whitespace; for two
results this is `trim(R1 ++ " " ++ R2)`. -/
theorem claim6_fragments_joined :
    (∀ (audio : List Chunk) (language_code : LangCode)
       (alts : Option (List LangCode)) (model : Option (List Char))
       (phrases : List (List Char)) (boost : Rat)
       (fragments : List (List Char)),
       (transcribe_streaming audio language_code alts model phrases boost
           (.ok (fragments.map mkFinalResponse))).2 =
         .ok (pyStrip (joinSpace fragments))) ∧
    (∀ R1 R2 : List Char,
       fold_transcript [mkFinalResponse R1, mkFinalResponse R2] =
         pyStrip (R1 ++ ' ' :: R2)) := by
  have key : ∀ fragments : List (List Char),
      fold_transcript (fragments.map mkFinalResponse) =
        pyStrip (joinSpace fragments) := by
    intro fragments
    rw [fold_transcript_eq, finalFragments_mkFinal, pyStrip_catLists_spaced]
  constructor
  · intro audio language_code alts model phrases boost fragments
    simp [transcribe_streaming, key fragments]
  · intro R1 R2
    have h := key [R1, R2]
    simpa [joinSpace] using h

/-- **C7 (counterexample).** The claim's "returns an empty string only if
no final result arrived" is false: a final result did arrive (a final
result whose first alternative is the whitespace text `" "`), yet the
adapter returns the empty string, because trimming erases it. -/
theorem claim7_counterexample :
    (transcribe_streaming [] [] none none [] 20
        (.ok [⟨[⟨true, [⟨[' ']⟩]⟩]⟩])).2 = .ok [] ∧
    noFinalResults [⟨[⟨true, [⟨[' ']⟩]⟩]⟩] = false := by
  exact ⟨rfl, rfl⟩

/-- **C7 (amended).** The adapter returns the empty string whenever the
remote service delivers zero final results before stream completion, and
this empty transcript is an ordinary `.ok` value, not an error; an empty
return implies only that every accumulated final fragment was
whitespace-only (which holds in particular when no final result arrived,
but also when a final result with whitespace-only text arrived). -/
theorem claim7_empty_transcript (responses : List StreamingRecognizeResponse) :
    (noFinalResults responses = true → fold_transcript responses = []) ∧
    (fold_transcript responses = [] →
       ∀ f ∈ finalFragments responses, f.all Char.isWhitespace = true) ∧
    (∀ (audio : List Chunk) (language_code : LangCode)
       (alts : Option (List LangCode)) (model : Option (List Char))
       (phrases : List (List Char)) (boost : Rat),
       (transcribe_streaming audio language_code alts model phrases boost
           (.ok responses)).2 = .ok (fold_transcript responses)) := by
  refine ⟨?_, ?_, ?_⟩
  · intro h
    rw [fold_transcript_eq, finalFragments_of_noFinal responses h]
    rfl
  · intro he f hf
    rw [fold_transcript_eq, pyStrip_eq_nil_iff, catLists_all] at he
    rw [List.all_eq_true] at he
    have hmem : f ++ [' '] ∈ (finalFragments responses).map (· ++ [' ']) :=
      List.mem_map_of_mem _ hf
    have := he (f ++ [' ']) hmem
    simp only [List.all_append, Bool.and_eq_true] at this
    exact this.1
  · intro audio language_code alts model phrases boost
    simp [transcribe_streaming, fold_transcript]

/-- Witness for C7 (amended) on a stream with one non-final result. -/
theorem claim7_witness :
    fold_transcript [⟨[⟨false, [⟨['h', 'i']⟩]⟩]⟩] = [] ∧
    (∀ f ∈ finalFragments [⟨[⟨false, [⟨['h', 'i']⟩]⟩]⟩],
       f.all Char.isWhitespace = true) :=
  ⟨(claim7_empty_transcript [⟨[⟨false, [⟨['h', 'i']⟩]⟩]⟩]).1 (by decide),
   (claim7_empty_transcript [⟨[⟨false, [⟨['h', 'i']⟩]⟩]⟩]).2.1
     ((claim7_empty_transcript [⟨[⟨false, [⟨['h', 'i']⟩]⟩]⟩]).1 (by decide))⟩

/-- **C8.** The audio relay queue is bounded by the fixed capacity 16:
under every producer/consumer interleaving the number of buffered frames
never exceeds the bound; a put issued on a full queue suspends the
producer while retaining the frame (nothing is dropped and the buffer
does not grow), and the consumer's next get removes the oldest frame and
completes the suspended put. -/
theorem claim8_bounded_backpressure :
    QUEUE_MAXSIZE = 16 ∧
    (∀ acts : List QAction,
       (runQueue ⟨[], none⟩ acts).buf.length ≤ QUEUE_MAXSIZE) ∧
    (∀ (q : BoundedQueue) (c : Chunk), q.buf.length = QUEUE_MAXSIZE →
       qput q c = { q with pending := some c }) ∧
    (∀ (x : Chunk) (rest : List Chunk) (c : Chunk),
       qget ⟨x :: rest, some c⟩ = (⟨rest ++ [c], none⟩, some x)) := by
  refine ⟨rfl, ?_, ?_, fun x rest c => rfl⟩
  · intro acts
    exact runQueue_length_le acts _ (by simp)
  · intro q c h
    unfold qput
    rw [h]
    simp

/-- Witness for C8 at a concrete full queue. -/
theorem claim8_witness :
    qput ⟨List.replicate 16 ([] : Chunk), none⟩ [1] =
      { buf := List.replicate 16 ([] : Chunk), pending := some [1] } :=
  claim8_bounded_backpressure.2.2.1 ⟨List.replicate 16 [], none⟩ [1]
    (by decide)

/-- **C10.** A result that is not both final and carrying at least one
alternative — in particular a result marked final whose alternatives list
is empty — contributes nothing to the accumulated transcript wherever it
occurs in the stream (silently skipped, not an error); a final result
with alternatives contributes exactly its first alternative's text plus
the separating space. -/
theorem claim10_skip_unaccepted (pre post : List StreamingRecognizeResponse)
    (final : Bool) (alternatives : List SpeechRecognitionAlternative)
    (h : final = false ∨ alternatives = []) :
    fold_transcript (pre ++ ⟨[⟨final, alternatives⟩]⟩ :: post) =
      fold_transcript (pre ++ post) ∧
    (∀ (transcript : List Char) (alt : SpeechRecognitionAlternative)
       (alts : List SpeechRecognitionAlternative),
       accumulate_result transcript ⟨true, alt :: alts⟩ =
         transcript ++ alt.transcript ++ [' ']) := by
  constructor
  · have hfrag : responseFragments ⟨[⟨final, alternatives⟩]⟩ = [] := by
      rcases h with h | h
      · simp [responseFragments, resultFragment, h, List.filterMap_cons]
      · subst h
        cases final <;>
          simp [responseFragments, resultFragment, List.filterMap_cons]
    rw [fold_transcript_eq, fold_transcript_eq, finalFragments_append,
      finalFragments_cons, hfrag, finalFragments_append]
    rfl
  · intro transcript alt alts
    rfl

/-- Witness for C10 with a concrete final-but-empty result. -/
theorem claim10_witness :
    fold_transcript
        ([] ++ (⟨[⟨true, []⟩]⟩ : StreamingRecognizeResponse) :: []) =
      fold_transcript ([] ++ []) :=
  (claim10_skip_unaccepted [] [] true [] (Or.inr rfl)).1

end WyomingGoogleStt
